import Mathlib

/-!
Shallow embedding of the go-extras stream pipeline (package `stream`,
file parallelstream_test.go of the staged sources: the Stream container,
its sequential operations, the bounded-concurrency ParallelStream) and of
the collaborating `optional` package.  Go slices become Lean lists; Go's
`fmt.Sprintf("%v", e)` canonical rendering becomes an explicit function
parameter `fmtV`; Go's `sort.Slice` (pattern-defeating quicksort of the
Go 1.19+ standard library, sort/zsortfunc.go) is embedded in full in
namespace GoSort, with loops written as fuel-based structural recursions
so every definition evaluates by kernel reduction.
-/

namespace GoExtras

/-- Optional represents a value that may or may not be present
(src/optional/optional.go).  The Go struct stores a `value T` (left at the
zero value when absent, modelled by `default`) and a `found bool`. -/
structure Optional (T : Type) where
  value : T
  found : Bool
deriving DecidableEq

/-- Of creates an Optional with a present value. -/
def Of {T : Type} (value : T) : Optional T := ⟨value, true⟩

/-- Empty creates an empty Optional: `found` is false and `value` is the
zero value of T (Go leaves the field at its zero value). -/
def Empty (T : Type) [Inhabited T] : Optional T := ⟨default, false⟩

/-- GetIfPresent returns the value and a boolean indicating presence. -/
def GetIfPresent {T : Type} [Inhabited T] (o : Optional T) : T × Bool :=
  if o.found then (o.value, true) else (default, false)

/-- Stream represents a sequence of elements (the Container of the spec). -/
structure Stream (T : Type) where
  elements : List T
deriving DecidableEq

/-- NewStream creates a new Stream from a slice. -/
def NewStream {T : Type} (elements : List T) : Stream T := ⟨elements⟩

/-- Filter filters elements based on a predicate function:
`for _, e := range s.elements { if predicate(e) { result = append(result, e) } }`. -/
def Stream.Filter {T : Type} (s : Stream T) (predicate : T → Bool) : Stream T :=
  NewStream (s.elements.foldl
    (fun result e => if predicate e then result ++ [e] else result) [])

/-- Reduce reduces the elements to a single value using an aggregation
function: `accumulator := initialValue; for _, e := range s.elements {
accumulator = reducer(accumulator, e) }`. -/
def Stream.Reduce {T : Type} (s : Stream T) (reducer : T → T → T) (initialValue : T) : T :=
  s.elements.foldl (fun accumulator e => reducer accumulator e) initialValue

/-- ToSlice converts the Stream back to a slice (returns the backing slice). -/
def Stream.ToSlice {T : Type} (s : Stream T) : List T :=
  s.elements

/-- Count returns the number of elements in the stream. -/
def Stream.Count {T : Type} (s : Stream T) : Nat :=
  s.elements.length

/-- Collect returns the stream elements as a slice (method form). -/
def Stream.Collect {T : Type} (s : Stream T) : List T :=
  s.elements

/-- FindAny returns an arbitrary element from the Stream:
`if len(s.elements) > 0 { return optional.Of(s.elements[0]) };
return optional.Empty[T]()`. -/
def Stream.FindAny {T : Type} [Inhabited T] (s : Stream T) : Optional T :=
  if s.elements.length > 0 then Of (s.elements.getD 0 default) else Empty T

/-- FindFirst returns the first element from the Stream; its body is
character for character the body of FindAny. -/
def Stream.FindFirst {T : Type} [Inhabited T] (s : Stream T) : Optional T :=
  if s.elements.length > 0 then Of (s.elements.getD 0 default) else Empty T

/-- Distinct removes duplicate elements from the Stream.  The Go code keys
a `map[interface!]bool` by `fmt.Sprintf("%v", e)`; the canonical rendering
is the explicit parameter `fmtV`.  `distinctLoop` is the range loop, with
`uniqueMap` the set of keys seen so far. -/
def distinctLoop {T : Type} (fmtV : T → String) : List T → List String → List T
  | [], _ => []
  | e :: rest, uniqueMap =>
    let key := fmtV e
    if key ∈ uniqueMap then distinctLoop fmtV rest uniqueMap
    else e :: distinctLoop fmtV rest (key :: uniqueMap)

/-- Distinct removes duplicate elements (first occurrence kept, order
preserved), keyed by the canonical rendering `fmtV`. -/
def Stream.Distinct {T : Type} (s : Stream T) (fmtV : T → String) : Stream T :=
  NewStream (distinctLoop fmtV s.elements [])

/-- Join concatenates the elements of the Stream into a single string:
empty stream gives "", a single element gives its rendering, otherwise a
builder loop writes the separator before every element but the first. -/
def Stream.Join {T : Type} (s : Stream T) (fmtV : T → String) (separator : String) : String :=
  match s.elements with
  | [] => ""
  | [e] => fmtV e
  | e :: rest => rest.foldl (fun result x => result ++ separator ++ fmtV x) (fmtV e)

/-- GroupBy groups the Stream elements into a map (method form; the Go
key type interface! is modelled by a type K with decidable equality, the
Go map by a function from keys to groups):
`for _, e := range s.elements { key := keyMapper(e); result[key] = append(result[key], e) }`. -/
def Stream.GroupBy {T K : Type} [DecidableEq K] (s : Stream T) (keyMapper : T → K) : K → List T :=
  s.elements.foldl
    (fun result e =>
      let key := keyMapper e
      fun k => if k = key then result k ++ [e] else result k)
    (fun _ => [])

/-- GroupByWithValueMapper groups the Stream elements into a map using a
key mapper; values are transformed by the value mapper before being
appended to their group. -/
def GroupByWithValueMapper {T K V : Type} [DecidableEq K] (stream : Stream T)
    (keyMapper : T → K) (valueMapper : T → V) : K → List V :=
  stream.elements.foldl
    (fun result e =>
      let key := keyMapper e
      let value := valueMapper e
      fun k => if k = key then result k ++ [value] else result k)
    (fun _ => [])

/-- Map transforms elements from type T to type R (package-level generic
function): `for _, e := range stream.elements { result = append(result, mapper(e)) }`. -/
def Map {T R : Type} (stream : Stream T) (mapper : T → R) : Stream R :=
  NewStream (stream.elements.foldl (fun result e => result ++ [mapper e]) [])

/-- FlatMap transforms elements from type T to slices of R and flattens
the result: `result = append(result, mapper(e)...)`. -/
def FlatMap {T R : Type} (stream : Stream T) (mapper : T → List R) : Stream R :=
  NewStream (stream.elements.foldl (fun result e => result ++ mapper e) [])

/-- Limit returns at most n elements from the stream.  The Go body is
`if n >= len(stream.elements) { return stream }; return NewStream(stream.elements[:n])`:
`n` is a Go int (here Int), and the slice expression `stream.elements[:n]`
panics at run time when n is negative — that outcome is `none`. -/
def Limit {T : Type} (stream : Stream T) (n : Int) : Option (Stream T) :=
  if n ≥ (stream.elements.length : Int) then some stream
  else if 0 ≤ n then some (NewStream (stream.elements.take n.toNat))
  else none

/-- Collect returns a slice of elements from the stream (package-level
generic function). -/
def Collect {T : Type} (stream : Stream T) : List T :=
  stream.elements

namespace GoSort

/-!
Embedding of Go's `sort.Slice` as the `stream.Sort` method calls it
(sort/zsortfunc.go of the Go 1.19+ standard library: `pdqsort_func` over a
`lessSwap` closing over the slice).  The slice is a `List α`; `data.Less(i, j)`
reads positions through `List.getD` and `data.Swap(i, j)` is `swapAt`.
Every Go loop is a structural recursion over an explicit fuel argument
large enough for the loop's real iteration count, so that all definitions
reduce in the kernel.
-/

variable {α : Type}

/-- data.Less(i, j) of the lessSwap closure. -/
def lessAt [Inhabited α] (less : α → α → Bool) (l : List α) (i j : Nat) : Bool :=
  less (l.getD i default) (l.getD j default)

/-- data.Swap(i, j): exchange the elements at positions i and j. -/
def swapAt [Inhabited α] (l : List α) (i j : Nat) : List α :=
  (l.set i (l.getD j default)).set j (l.getD i default)

/-- Inner loop of insertionSort_func:
`for j := i; j > a && data.Less(j, j-1); j-- { data.Swap(j, j-1) }`.
The first Nat argument is the loop variable j. -/
def insertionSortInner [Inhabited α] (less : α → α → Bool) (a : Nat) :
    Nat → List α → List α
  | 0, l => l
  | j + 1, l =>
    if a < j + 1 ∧ lessAt less l (j + 1) j then
      insertionSortInner less a j (swapAt l (j + 1) j)
    else l

/-- Outer loop of insertionSort_func: `for i := a + 1; i < b; i++`. -/
def insertionSortOuter [Inhabited α] (less : α → α → Bool) (a b : Nat) :
    Nat → Nat → List α → List α
  | 0, _, l => l
  | fuel + 1, i, l =>
    if i < b then
      insertionSortOuter less a b fuel (i + 1) (insertionSortInner less a i l)
    else l

/-- insertionSort_func sorts data[a:b] using insertion sort. -/
def insertionSortFunc [Inhabited α] (less : α → α → Bool) (l : List α) (a b : Nat) : List α :=
  insertionSortOuter less a b b (a + 1) l

/-- siftDown_func implements the heap property on data[lo:hi];
first holds the offset into the slice where the heap root lives. -/
def siftDownFunc [Inhabited α] (less : α → α → Bool) :
    Nat → Nat → Nat → Nat → List α → List α
  | 0, _, _, _, l => l
  | fuel + 1, root, hi, first, l =>
    let child := 2 * root + 1
    if child ≥ hi then l
    else
      let child :=
        if child + 1 < hi ∧ lessAt less l (first + child) (first + child + 1) then child + 1
        else child
      if ¬ lessAt less l (first + root) (first + child) then l
      else siftDownFunc less fuel child hi first (swapAt l (first + root) (first + child))

/-- First loop of heapSort_func, building the heap:
`for i := (hi - 1) / 2; i >= 0; i--`; the Nat argument is i. -/
def heapSortLoop1 [Inhabited α] (less : α → α → Bool) (hi first : Nat) :
    Nat → List α → List α
  | 0, l => siftDownFunc less hi 0 hi first l
  | i + 1, l => heapSortLoop1 less hi first i (siftDownFunc less hi (i + 1) hi first l)

/-- Second loop of heapSort_func, popping elements largest first:
`for i := hi - 1; i >= 0; i-- { data.Swap(first, first+i); siftDown(data, lo, i, first) }`;
the Nat argument counts the remaining iterations (i runs c-1, …, 0). -/
def heapSortLoop2 [Inhabited α] (less : α → α → Bool) (hi first : Nat) :
    Nat → List α → List α
  | 0, l => l
  | c + 1, l =>
    heapSortLoop2 less hi first c
      (siftDownFunc less hi 0 c first (swapAt l first (first + c)))

/-- heapSort_func sorts data[a:b]. -/
def heapSortFunc [Inhabited α] (less : α → α → Bool) (l : List α) (a b : Nat) : List α :=
  let first := a
  let hi := b - a
  heapSortLoop2 less hi first hi (heapSortLoop1 less hi first ((hi - 1) / 2) l)

/-- reverseRange_func: `i := a; j := b - 1; for i < j { data.Swap(i, j); i++; j-- }`. -/
def reverseRangeFunc [Inhabited α] : Nat → Nat → Nat → List α → List α
  | 0, _, _, l => l
  | fuel + 1, i, j, l =>
    if i < j then reverseRangeFunc fuel (i + 1) (j - 1) (swapAt l i j) else l

/-- bits.Len for an unsigned word: the number of bits needed to represent n. -/
def goBitsLen (n : Nat) : Nat := if n = 0 then 0 else n.log2 + 1

/-- nextPowerOfTwo of sort/zsortfunc.go: `1 << bits.Len(uint(length))`. -/
def nextPowerOfTwo (length : Nat) : Nat := 1 <<< goBitsLen length

/-- Next of the xorshift generator used by breakPatterns_func
(a uint64 state: shifts are taken modulo 2^64). -/
def xorshiftNext (r : Nat) : Nat × Nat :=
  let r := (r ^^^ (r <<< 13)) % 2 ^ 64
  let r := (r ^^^ (r >>> 7)) % 2 ^ 64
  let r := (r ^^^ (r <<< 17)) % 2 ^ 64
  (r, r)

/-- The three swaps of breakPatterns_func (loop variable i = 0, 1, 2;
the first Nat argument counts the remaining iterations). -/
def breakPatternsLoop [Inhabited α] (a idx length modulus : Nat) :
    Nat → Nat → Nat → List α → List α
  | 0, _, _, l => l
  | c + 1, i, random, l =>
    let next := xorshiftNext random
    let other := next.1 &&& (modulus - 1)
    let other := if other ≥ length then other - length else other
    breakPatternsLoop a idx length modulus c (i + 1) next.2 (swapAt l (idx - 1 + i) (a + other))

/-- breakPatterns_func scatters some elements around to break patterns
that might cause imbalanced partitions; the xorshift state is seeded with
the length. -/
def breakPatternsFunc [Inhabited α] (l : List α) (a b : Nat) : List α :=
  let length := b - a
  if length ≥ 8 then
    let modulus := nextPowerOfTwo length
    let idx := a + (length / 4) * 2 - 1
    breakPatternsLoop a idx length modulus 3 0 length l
  else l

/-- The three sortedness hints of choosePivot_func. -/
inductive SortedHint
  | unknownHint
  | increasingHint
  | decreasingHint
deriving DecidableEq

/-- order2_func returns x, y where x ≤ y, counting a swap when it reorders. -/
def order2Func [Inhabited α] (less : α → α → Bool) (l : List α) (a b swaps : Nat) :
    Nat × Nat × Nat :=
  if lessAt less l b a then (b, a, swaps + 1) else (a, b, swaps)

/-- median_func returns the index of the median of the three positions. -/
def medianFunc [Inhabited α] (less : α → α → Bool) (l : List α) (a b c swaps : Nat) :
    Nat × Nat :=
  let r1 := order2Func less l a b swaps
  let a := r1.1
  let b := r1.2.1
  let swaps := r1.2.2
  let r2 := order2Func less l b c swaps
  let b := r2.1
  let swaps := r2.2.2
  let r3 := order2Func less l a b swaps
  let b := r3.2.1
  let swaps := r3.2.2
  (b, swaps)

/-- medianAdjacent_func finds the median of data[a-1], data[a], data[a+1]. -/
def medianAdjacentFunc [Inhabited α] (less : α → α → Bool) (l : List α) (a swaps : Nat) :
    Nat × Nat :=
  medianFunc less l (a - 1) a (a + 1) swaps

/-- choosePivot_func chooses a pivot in data[a:b] and reports how sorted
the samples looked: below 8 elements a static pivot, below 50 the simple
median of three, otherwise the Tukey ninther. -/
def choosePivotFunc [Inhabited α] (less : α → α → Bool) (l : List α) (a b : Nat) :
    Nat × SortedHint :=
  let length := b - a
  let i := a + length / 4 * 1
  let j := a + length / 4 * 2
  let k := a + length / 4 * 3
  let r :=
    if length ≥ 8 then
      let r0 :=
        if length ≥ 50 then
          let ri := medianAdjacentFunc less l i 0
          let rj := medianAdjacentFunc less l j ri.2
          let rk := medianAdjacentFunc less l k rj.2
          (ri.1, rj.1, rk.1, rk.2)
        else (i, j, k, 0)
      let rm := medianFunc less l r0.1 r0.2.1 r0.2.2.1 r0.2.2.2
      (rm.1, rm.2)
    else (j, 0)
  if r.2 = 0 then (r.1, SortedHint.increasingHint)
  else if r.2 = 12 then (r.1, SortedHint.decreasingHint)
  else (r.1, SortedHint.unknownHint)

/-- Scan loop `for i <= j && data.Less(i, a) { i++ }` of partition_func. -/
def partitionLoopI [Inhabited α] (less : α → α → Bool) (l : List α) (a j : Nat) :
    Nat → Nat → Nat
  | 0, i => i
  | fuel + 1, i =>
    if i ≤ j ∧ lessAt less l i a then partitionLoopI less l a j fuel (i + 1) else i

/-- Scan loop `for i <= j && !data.Less(j, a) { j-- }` of partition_func. -/
def partitionLoopJ [Inhabited α] (less : α → α → Bool) (l : List α) (a i : Nat) :
    Nat → Nat → Nat
  | 0, j => j
  | fuel + 1, j =>
    if i ≤ j ∧ ¬ lessAt less l j a then partitionLoopJ less l a i fuel (j - 1) else j

/-- The repeated scan-and-swap loop of partition_func after the first
scan pair found a swap; returns (newpivot, alreadyPartitioned, data). -/
def partitionMainLoop [Inhabited α] (less : α → α → Bool) (a b : Nat) :
    Nat → Nat → Nat → List α → Nat × Bool × List α
  | 0, _, j, l => (j, false, swapAt l j a)
  | fuel + 1, i, j, l =>
    let i := partitionLoopI less l a j (b + 1) i
    let j := partitionLoopJ less l a i (b + 1) j
    if i > j then (j, false, swapAt l j a)
    else partitionMainLoop less a b fuel (i + 1) (j - 1) (swapAt l i j)

/-- partition_func: one quicksort partition of data[a:b] around data[pivot],
returning (newpivot, alreadyPartitioned, data). -/
def partitionFunc [Inhabited α] (less : α → α → Bool) (l : List α) (a b pivot : Nat) :
    Nat × Bool × List α :=
  let l := swapAt l a pivot
  let i := partitionLoopI less l a (b - 1) (b + 1) (a + 1)
  let j := partitionLoopJ less l a i (b + 1) (b - 1)
  if i > j then (j, true, swapAt l j a)
  else partitionMainLoop less a b (b + 1) (i + 1) (j - 1) (swapAt l i j)

/-- Scan loop `for i <= j && !data.Less(a, i) { i++ }` of partitionEqual_func. -/
def partitionEqualLoopI [Inhabited α] (less : α → α → Bool) (l : List α) (a j : Nat) :
    Nat → Nat → Nat
  | 0, i => i
  | fuel + 1, i =>
    if i ≤ j ∧ ¬ lessAt less l a i then partitionEqualLoopI less l a j fuel (i + 1) else i

/-- Scan loop `for i <= j && data.Less(a, j) { j-- }` of partitionEqual_func. -/
def partitionEqualLoopJ [Inhabited α] (less : α → α → Bool) (l : List α) (a i : Nat) :
    Nat → Nat → Nat
  | 0, j => j
  | fuel + 1, j =>
    if i ≤ j ∧ lessAt less l a j then partitionEqualLoopJ less l a i fuel (j - 1) else j

/-- The scan-and-swap loop of partitionEqual_func; returns (newpivot, data). -/
def partitionEqualMain [Inhabited α] (less : α → α → Bool) (a b : Nat) :
    Nat → Nat → Nat → List α → Nat × List α
  | 0, i, _, l => (i, l)
  | fuel + 1, i, j, l =>
    let i := partitionEqualLoopI less l a j (b + 1) i
    let j := partitionEqualLoopJ less l a i (b + 1) j
    if i > j then (i, l)
    else partitionEqualMain less a b fuel (i + 1) (j - 1) (swapAt l i j)

/-- partitionEqual_func partitions data[a:b] into elements equal to
data[pivot] followed by elements greater than it; returns (newpivot, data). -/
def partitionEqualFunc [Inhabited α] (less : α → α → Bool) (l : List α) (a b pivot : Nat) :
    Nat × List α :=
  partitionEqualMain less a b (b + 1) (a + 1) (b - 1) (swapAt l a pivot)

/-- Advance loop `for i < b && !data.Less(i, i-1) { i++ }` of
partialInsertionSort_func. -/
def pisAdvance [Inhabited α] (less : α → α → Bool) (l : List α) (b : Nat) :
    Nat → Nat → Nat
  | 0, i => i
  | fuel + 1, i =>
    if i < b ∧ ¬ lessAt less l i (i - 1) then pisAdvance less l b fuel (i + 1) else i

/-- Shift-left loop of partialInsertionSort_func:
`for j := i - 1; j >= 1; j-- { if !data.Less(j, j-1) { break }; data.Swap(j, j-1) }`;
the Nat argument is the loop variable j. -/
def pisShiftLeft [Inhabited α] (less : α → α → Bool) : Nat → List α → List α
  | 0, l => l
  | j + 1, l =>
    if lessAt less l (j + 1) j then pisShiftLeft less j (swapAt l (j + 1) j) else l

/-- Shift-right loop of partialInsertionSort_func:
`for j := i + 1; j < b; j++ { if !data.Less(j, j-1) { break }; data.Swap(j, j-1) }`. -/
def pisShiftRight [Inhabited α] (less : α → α → Bool) (b : Nat) :
    Nat → Nat → List α → List α
  | 0, _, l => l
  | fuel + 1, j, l =>
    if j < b ∧ lessAt less l j (j - 1) then pisShiftRight less b fuel (j + 1) (swapAt l j (j - 1))
    else l

/-- The maxSteps loop of partialInsertionSort_func (at most 5 adjacent
out-of-order pairs get shifted; no shifting below 50 elements); returns
(sorted, data). -/
def pisOuter [Inhabited α] (less : α → α → Bool) (a b : Nat) :
    Nat → Nat → List α → Bool × List α
  | 0, _, l => (false, l)
  | step + 1, i, l =>
    let i := pisAdvance less l b (b + 1) i
    if i = b then (true, l)
    else if b - a < 50 then (false, l)
    else
      let l := swapAt l i (i - 1)
      let l := if i - a ≥ 2 then pisShiftLeft less (i - 1) l else l
      let l := if b - i ≥ 2 then pisShiftRight less b (b + 1) (i + 1) l else l
      pisOuter less a b step i l

/-- partialInsertionSort_func partially sorts data[a:b], returning
whether the slice ended up sorted, together with the data. -/
def partialInsertionSortFunc [Inhabited α] (less : α → α → Bool) (l : List α) (a b : Nat) :
    Bool × List α :=
  pisOuter less a b 5 (a + 1) l

/-- pdqsort_func: the pattern-defeating quicksort driving sort.Slice.
The outer `for` loop and the recursive call on the shorter side both run
through the fuel argument; recursive calls re-enter with wasBalanced and
wasPartitioned reset to true exactly as a fresh Go invocation does. -/
def pdqsortFunc [Inhabited α] (less : α → α → Bool) :
    Nat → List α → Nat → Nat → Nat → Bool → Bool → List α
  | 0, l, _, _, _, _, _ => l
  | fuel + 1, l, a, b, limit, wasBalanced, wasPartitioned =>
    let length := b - a
    if length ≤ 12 then insertionSortFunc less l a b
    else if limit = 0 then heapSortFunc less l a b
    else
      let lp := if ¬ wasBalanced then (breakPatternsFunc l a b, limit - 1) else (l, limit)
      let l := lp.1
      let limit := lp.2
      let ph := choosePivotFunc less l a b
      let lph :=
        if ph.2 = SortedHint.decreasingHint then
          (reverseRangeFunc (b + 1) a (b - 1) l, (b - 1) - (ph.1 - a), SortedHint.increasingHint)
        else (l, ph.1, ph.2)
      let l := lph.1
      let pivot := lph.2.1
      let hint := lph.2.2
      let dl :=
        if wasBalanced ∧ wasPartitioned ∧ hint = SortedHint.increasingHint then
          partialInsertionSortFunc less l a b
        else (false, l)
      let l := dl.2
      if dl.1 then l
      else if a > 0 ∧ ¬ lessAt less l (a - 1) pivot then
        let ml := partitionEqualFunc less l a b pivot
        pdqsortFunc less fuel ml.2 ml.1 b limit wasBalanced wasPartitioned
      else
        let mal := partitionFunc less l a b pivot
        let mid := mal.1
        let wasPartitioned := mal.2.1
        let l := mal.2.2
        let leftLen := mid - a
        let rightLen := b - mid
        let balanceThreshold := length / 8
        let wasBalanced := decide (min leftLen rightLen ≥ balanceThreshold)
        if leftLen < rightLen then
          let l := pdqsortFunc less fuel l a mid limit true true
          pdqsortFunc less fuel l (mid + 1) b limit wasBalanced wasPartitioned
        else
          let l := pdqsortFunc less fuel l (mid + 1) b limit true true
          pdqsortFunc less fuel l a mid limit wasBalanced wasPartitioned

/-- sort.Slice as stream.Sort calls it: `limit := bits.Len(uint(length));
pdqsort_func(lessSwap, 0, length, limit)`.  The fuel 3·length + 3 covers
the real iteration count (each loop pass or recursion strictly shrinks
the range it works on, and recursion always descends into the shorter
side). -/
def sortSlice [Inhabited α] (less : α → α → Bool) (l : List α) : List α :=
  pdqsortFunc less (3 * l.length + 3) l 0 l.length (goBitsLen l.length) true true

end GoSort

/-- Sort sorts the elements based on a comparison function: the Go method
copies the backing slice (`result := make([]T, len); copy(result, s.elements)`)
and hands the copy to sort.Slice, leaving the receiver untouched. -/
def Stream.Sort {T : Type} [Inhabited T] (s : Stream T) (less : T → T → Bool) : Stream T :=
  NewStream (GoSort.sortSlice less s.elements)

/-- ParallelStream applies the mapper to the Stream elements in parallel.
Each element is handed to exactly one goroutine, which sends exactly one
result into a channel buffered to the element count; after all goroutines
finish the channel is drained in arrival order.  The semaphore
(`maxGoroutines`, defaulted to GOMAXPROCS when not positive) bounds how
many goroutines run at once, which only restricts the possible arrival
orders; an arrival order is any permutation of the input positions, and
is passed here as the explicit `arrival` list. -/
def Stream.ParallelStream {T R : Type} [Inhabited T] (s : Stream T) (mapper : T → R)
    (maxGoroutines : Int) (gomaxprocs : Nat) (arrival : List Nat) : Stream R :=
  let effective := if maxGoroutines ≤ 0 then (gomaxprocs : Int) else maxGoroutines
  let _ := effective
  NewStream (arrival.map (fun i => mapper (s.elements.getD i default)))

/-- A minimal heap of slices, for stating that the transforming operations
never write through the receiver: numbered arrays plus the next fresh id.
Every transforming call reads the receiver's array, allocates its result
at the fresh id (or, for Limit with n ≥ length, returns the receiver's own
id without allocating) and never stores to an existing id. -/
structure SliceHeap (T : Type) where
  arrays : Nat → List T
  nextId : Nat

/-- Filter as a heap operation: the result slice is built by append into a
fresh allocation; returns the heap after the call and the result's id. -/
def FilterCall {T : Type} (h : SliceHeap T) (recv : Nat) (predicate : T → Bool) :
    SliceHeap T × Nat :=
  let result := (h.arrays recv).foldl
    (fun result e => if predicate e then result ++ [e] else result) []
  (⟨fun i => if i = h.nextId then result else h.arrays i, h.nextId + 1⟩, h.nextId)

/-- Sort as a heap operation: `result := make([]T, len(s.elements))` and
`copy(result, s.elements)` allocate a fresh array holding the receiver's
elements; `sort.Slice` then mutates only that fresh array. -/
def SortCall {T : Type} [Inhabited T] (h : SliceHeap T) (recv : Nat) (less : T → T → Bool) :
    SliceHeap T × Nat :=
  let result := h.arrays recv
  let sorted := GoSort.sortSlice less result
  (⟨fun i => if i = h.nextId then sorted else h.arrays i, h.nextId + 1⟩, h.nextId)

/-- Distinct as a heap operation: the kept elements go into a fresh
allocation. -/
def DistinctCall {T : Type} (h : SliceHeap T) (recv : Nat) (fmtV : T → String) :
    SliceHeap T × Nat :=
  let result := distinctLoop fmtV (h.arrays recv) []
  (⟨fun i => if i = h.nextId then result else h.arrays i, h.nextId + 1⟩, h.nextId)

/-- Limit as a heap operation: with n ≥ length the receiver's own id is
returned and nothing is allocated; with 0 ≤ n < length a fresh prefix
slice is allocated; with n < 0 the slice expression panics (no result id)
before anything is written. -/
def LimitCall {T : Type} (h : SliceHeap T) (recv : Nat) (n : Int) :
    SliceHeap T × Option Nat :=
  if n ≥ ((h.arrays recv).length : Int) then (h, some recv)
  else if 0 ≤ n then
    (⟨fun i => if i = h.nextId then (h.arrays recv).take n.toNat else h.arrays i,
      h.nextId + 1⟩, some h.nextId)
  else (h, none)

/-- Map as a heap operation: the result is a fresh slice of the target
type (a different heap); the receiver's heap is read, never written. -/
def MapCall {T R : Type} (h : SliceHeap T) (recv : Nat) (mapper : T → R) :
    SliceHeap T × List R :=
  (h, (h.arrays recv).foldl (fun result e => result ++ [mapper e]) [])

/-- FlatMap as a heap operation: like Map, the receiver's heap is read,
never written. -/
def FlatMapCall {T R : Type} (h : SliceHeap T) (recv : Nat) (mapper : T → List R) :
    SliceHeap T × List R :=
  (h, (h.arrays recv).foldl (fun result e => result ++ mapper e) [])

/-- A comparator on pairs that looks only at the first component: this is
how a caller of Sort observes stability, the second component carrying
each element's position in the input. -/
def liftLess {T : Type} (less : T → T → Bool) : T × Nat → T × Nat → Bool :=
  fun p q => less p.1 q.1

/-- Two tagged elements are equal-ranked when `less` holds in neither
direction; stability demands that such a pair keeps its input order
(strictly increasing tags). -/
def stablePair {T : Type} (less : T → T → Bool) (p q : T × Nat) : Prop :=
  less p.1 q.1 = false → less q.1 p.1 = false → p.2 < q.2

instance {T : Type} (less : T → T → Bool) (p q : T × Nat) :
    Decidable (stablePair less p q) := by
  unfold stablePair
  infer_instance

/-- The strict natural order as a Go comparator. -/
def natLess (a b : Nat) : Bool := a < b

/-- Thirteen input elements tagged with their input positions: twelve
equal-ranked elements followed by one smaller one.  Thirteen elements is
the smallest count for which pdqsort partitions instead of running the
stable insertion sort. -/
def c1Input : List (Nat × Nat) :=
  [(1, 0), (1, 1), (1, 2), (1, 3), (1, 4), (1, 5), (1, 6),
   (1, 7), (1, 8), (1, 9), (1, 10), (1, 11), (0, 12)]

/-- A small tagged input with equal-ranked elements, used to instantiate
the stability theorem. -/
def c1Small : List (Nat × Nat) := [(5, 0), (5, 1), (3, 2), (5, 3)]

end GoExtras

namespace GoExtras

/-! Helper lemmas about the append-accumulating loops. -/

theorem foldl_append_map {T R : Type} (f : T → R) (l : List T) :
    ∀ acc : List R, l.foldl (fun result e => result ++ [f e]) acc = acc ++ l.map f := by
  induction l with
  | nil => intro acc; simp
  | cons e rest ih => intro acc; simp [ih]

theorem foldl_append_filter {T : Type} (p : T → Bool) (l : List T) :
    ∀ acc : List T,
      l.foldl (fun result e => if p e then result ++ [e] else result) acc
        = acc ++ l.filter p := by
  induction l with
  | nil => intro acc; simp
  | cons e rest ih =>
    intro acc
    by_cases h : p e <;> simp [h, ih]

theorem foldl_append_flat {T R : Type} (f : T → List R) (l : List T) :
    ∀ acc : List R, l.foldl (fun result e => result ++ f e) acc = acc ++ l.flatMap f := by
  induction l with
  | nil => intro acc; simp
  | cons e rest ih => intro acc; simp [ih]

theorem streamExt {T : Type} {s t : Stream T} (h : s.elements = t.elements) : s = t := by
  cases s; cases t; cases h; rfl

theorem Map_elements {T R : Type} (s : Stream T) (f : T → R) :
    (Map s f).elements = s.elements.map f := by
  simpa [Map, NewStream] using foldl_append_map f s.elements []

theorem Filter_elements {T : Type} (s : Stream T) (p : T → Bool) :
    (s.Filter p).elements = s.elements.filter p := by
  simpa [Stream.Filter, NewStream] using foldl_append_filter p s.elements []

theorem groupBy_fold_apply {T K : Type} [DecidableEq K] (keyMapper : T → K) (k : K)
    (l : List T) :
    ∀ m : K → List T,
      (l.foldl
        (fun result e =>
          let key := keyMapper e
          fun kk => if kk = key then result kk ++ [e] else result kk) m) k
        = m k ++ l.filter (fun e => decide (keyMapper e = k)) := by
  induction l with
  | nil => intro m; simp
  | cons e rest ih =>
    intro m
    rw [List.foldl_cons, ih, List.filter_cons]
    by_cases h : keyMapper e = k
    · simp [h, List.append_assoc]
    · have h2 : ¬ k = keyMapper e := fun hk => h hk.symm
      simp [h, h2]

theorem groupByValue_fold_apply {T K V : Type} [DecidableEq K] (keyMapper : T → K)
    (valueMapper : T → V) (k : K) (l : List T) :
    ∀ m : K → List V,
      (l.foldl
        (fun result e =>
          let key := keyMapper e
          let value := valueMapper e
          fun kk => if kk = key then result kk ++ [value] else result kk) m) k
        = m k ++ (l.filter (fun e => decide (keyMapper e = k))).map valueMapper := by
  induction l with
  | nil => intro m; simp
  | cons e rest ih =>
    intro m
    rw [List.foldl_cons, ih, List.filter_cons]
    by_cases h : keyMapper e = k
    · simp [h, List.append_assoc]
    · have h2 : ¬ k = keyMapper e := fun hk => h hk.symm
      simp [h, h2]

/-! Helper lemmas about distinctLoop. -/

theorem distinctLoop_sublist {T : Type} (fmtV : T → String) :
    ∀ (l : List T) (seen : List String), (distinctLoop fmtV l seen).Sublist l := by
  intro l
  induction l with
  | nil => intro seen; simp [distinctLoop]
  | cons e rest ih =>
    intro seen
    rw [distinctLoop]
    by_cases h : fmtV e ∈ seen
    · exact List.Sublist.trans (by simpa [h] using ih seen) (List.sublist_cons_self e rest)
    · simpa [h] using List.Sublist.cons₂ e (ih (fmtV e :: seen))

theorem distinctLoop_keys {T : Type} (fmtV : T → String) :
    ∀ (l : List T) (seen : List String),
      ((distinctLoop fmtV l seen).map fmtV).Nodup ∧
      ∀ e ∈ distinctLoop fmtV l seen, fmtV e ∉ seen := by
  intro l
  induction l with
  | nil => intro seen; simp [distinctLoop]
  | cons e rest ih =>
    intro seen
    rw [distinctLoop]
    by_cases h : fmtV e ∈ seen
    · simpa [h] using ih seen
    · have ihrec := ih (fmtV e :: seen)
      refine ⟨?_, ?_⟩
      · simp only [h, if_false, List.map_cons, List.nodup_cons]
        refine ⟨?_, ihrec.1⟩
        intro hmem
        rcases List.mem_map.mp hmem with ⟨x, hx, hfx⟩
        exact ihrec.2 x hx (by simp [hfx])
      · intro x hx
        simp only [h, if_false, List.mem_cons] at hx
        rcases hx with hx | hx
        · subst hx; exact h
        · intro hxseen
          exact ihrec.2 x hx (List.mem_cons_of_mem _ hxseen)

theorem distinctLoop_of_nodup {T : Type} (fmtV : T → String) :
    ∀ (l : List T) (seen : List String), ((l.map fmtV).Nodup) →
      (∀ e ∈ l, fmtV e ∉ seen) → distinctLoop fmtV l seen = l := by
  intro l
  induction l with
  | nil => intro seen _ _; rfl
  | cons e rest ih =>
    intro seen hnodup hfresh
    have hnot : fmtV e ∉ seen := hfresh e (List.mem_cons_self e rest)
    rw [distinctLoop]
    simp only [hnot, if_false]
    rw [List.map_cons, List.nodup_cons] at hnodup
    congr 1
    refine ih (fmtV e :: seen) hnodup.2 ?_
    intro x hx
    rw [List.mem_cons]
    push_neg
    constructor
    · intro hfx
      exact hnodup.1 (hfx ▸ List.mem_map_of_mem fmtV hx)
    · exact hfresh x (List.mem_cons_of_mem _ hx)

/-- Every input position read back through getD, in position order, is the
list itself. -/
theorem range_map_getD {T R : Type} [Inhabited T] (f : T → R) :
    ∀ l : List T,
      (List.range l.length).map (fun i => f (l.getD i default)) = l.map f := by
  intro l
  induction l with
  | nil => simp
  | cons x xs ih =>
    have hcomp : ((fun i => f ((x :: xs).getD i default)) ∘ Nat.succ)
        = fun i => f (xs.getD i default) := by
      funext i
      simp [List.getD_cons_succ]
    rw [List.length_cons, List.range_succ_eq_map, List.map_cons, List.map_map, hcomp, ih,
      List.map_cons, List.getD_cons_zero]

/-- C2: for 0 ≤ n, Limit returns the first min(n, length) elements in
order (the prefix of length n.toNat), and for n ≥ length it returns the
receiver itself.  Negative n does not reach either result (see the
counterexample: the slice expression panics). -/
theorem limit_takes_min_prefix {T : Type} (s : Stream T) (n : Int) (hn : 0 ≤ n) :
    Limit s n = some (NewStream (s.elements.take n.toNat)) ∧
    ((s.elements.length : Int) ≤ n → Limit s n = some s) := by
  constructor
  · unfold Limit
    by_cases h : n ≥ (s.elements.length : Int)
    · rw [if_pos h]
      refine congrArg some (streamExt ?_)
      show s.elements = s.elements.take n.toNat
      have hlen : s.elements.length ≤ n.toNat := (Int.le_toNat hn).mpr h
      rw [List.take_of_length_le hlen]
    · rw [if_neg h, if_pos hn]
  · intro hle
    unfold Limit
    rw [if_pos hle]

/-- C2 witness: Limit at a concrete stream and bound. -/
theorem limit_takes_min_prefix_witness :
    Limit (NewStream [10, 20, 30]) 2 = some (NewStream [10, 20]) ∧
    (((3 : Nat) : Int) ≤ 2 → Limit (NewStream [10, 20, 30]) 2 = some (NewStream [10, 20, 30])) :=
  limit_takes_min_prefix (NewStream [10, 20, 30]) 2 (by decide)

/-- C2 counterexample: the claim says n ≤ 0 yields the empty stream, but
for negative n the Go body reaches `stream.elements[:n]`, which panics
(slice bounds out of range) instead of producing a stream. -/
theorem limit_negative_counterexample :
    Limit (NewStream [1, 2, 3]) (-1) = none ∧
    Limit (NewStream [1, 2, 3]) (-1) ≠ some (NewStream []) := by
  decide

/-- C3 (amended): every sequential operation applied to the empty stream
returns its well-defined neutral result — with Limit restricted to n ≥ 0,
since Limit of a negative n panics even on the empty stream. -/
theorem empty_stream_total_ops {T R K : Type} [Inhabited T] [DecidableEq K]
    (predicate : T → Bool) (mapper : T → R) (flatMapper : T → List R)
    (less : T → T → Bool) (fmtV : T → String) (separator : String)
    (reducer : T → T → T) (initialValue : T) (keyMapper : T → K)
    (n : Int) (hn : 0 ≤ n) :
    (NewStream ([] : List T)).Filter predicate = NewStream [] ∧
    Map (NewStream ([] : List T)) mapper = NewStream ([] : List R) ∧
    FlatMap (NewStream ([] : List T)) flatMapper = NewStream ([] : List R) ∧
    (NewStream ([] : List T)).Sort less = NewStream [] ∧
    (NewStream ([] : List T)).Distinct fmtV = NewStream [] ∧
    Limit (NewStream ([] : List T)) n = some (NewStream []) ∧
    (NewStream ([] : List T)).Reduce reducer initialValue = initialValue ∧
    (NewStream ([] : List T)).FindFirst = Empty T ∧
    (NewStream ([] : List T)).FindAny = Empty T ∧
    (NewStream ([] : List T)).Count = 0 ∧
    (NewStream ([] : List T)).Join fmtV separator = "" ∧
    (NewStream ([] : List T)).GroupBy keyMapper = (fun _ => []) := by
  refine ⟨rfl, rfl, rfl, rfl, rfl, ?_, rfl, rfl, rfl, rfl, rfl, rfl⟩
  unfold Limit
  rw [if_pos]
  simpa using hn

/-- C3 witness: the operations at concrete argument values on the empty
stream of naturals. -/
theorem empty_stream_total_ops_witness :
    (NewStream ([] : List Nat)).Filter (fun e => e % 2 = 0) = NewStream [] ∧
    Map (NewStream ([] : List Nat)) (fun e => e + 1) = NewStream ([] : List Nat) ∧
    FlatMap (NewStream ([] : List Nat)) (fun e => [e, e]) = NewStream ([] : List Nat) ∧
    (NewStream ([] : List Nat)).Sort natLess = NewStream [] ∧
    (NewStream ([] : List Nat)).Distinct (fun e => toString e) = NewStream [] ∧
    Limit (NewStream ([] : List Nat)) 0 = some (NewStream []) ∧
    (NewStream ([] : List Nat)).Reduce (fun a b => a + b) 7 = 7 ∧
    (NewStream ([] : List Nat)).FindFirst = Empty Nat ∧
    (NewStream ([] : List Nat)).FindAny = Empty Nat ∧
    (NewStream ([] : List Nat)).Count = 0 ∧
    (NewStream ([] : List Nat)).Join (fun e => toString e) "," = "" ∧
    (NewStream ([] : List Nat)).GroupBy (fun e => e % 3) = (fun _ => []) :=
  empty_stream_total_ops (fun e => e % 2 = 0) (fun e => e + 1) (fun e => [e, e])
    natLess (fun e => toString e) "," (fun a b => a + b) 7 (fun e => e % 3) 0 (by decide)

/-- C3 counterexample: Limit with a negative bound panics even on the
empty stream, so not every operation is total on the empty stream for
every argument value. -/
theorem limit_negative_empty_counterexample :
    Limit (NewStream ([] : List Nat)) (-1) = none := by
  decide

/-- C4: for every arrival order of the concurrent sends (any permutation
of the input positions — which is all the semaphore bound can influence),
ParallelStream returns exactly one result per input element: the length
equals the input length and the multiset of results is the image multiset
of the mapper, for any concurrency budget. -/
theorem parallelStream_length_multiset {T R : Type} [Inhabited T] (s : Stream T)
    (mapper : T → R) (maxGoroutines : Int) (gomaxprocs : Nat) (arrival : List Nat)
    (harr : arrival.Perm (List.range s.elements.length)) :
    (s.ParallelStream mapper maxGoroutines gomaxprocs arrival).elements.length
        = s.elements.length ∧
    ((s.ParallelStream mapper maxGoroutines gomaxprocs arrival).elements : Multiset R)
        = (s.elements.map mapper : Multiset R) := by
  have hel : (s.ParallelStream mapper maxGoroutines gomaxprocs arrival).elements
      = arrival.map (fun i => mapper (s.elements.getD i default)) := rfl
  have hperm : (arrival.map (fun i => mapper (s.elements.getD i default))).Perm
      (s.elements.map mapper) := by
    have h1 := harr.map (fun i => mapper (s.elements.getD i default))
    rw [range_map_getD] at h1
    exact h1
  constructor
  · rw [hel, List.length_map, harr.length_eq, List.length_range]
  · rw [hel]
    exact Multiset.coe_eq_coe.mpr hperm

/-- C4 witness: doubling [1, 2, 3] with budget -1 under the arrival order
2, 0, 1 yields three results forming the multiset of doubled values. -/
theorem parallelStream_length_multiset_witness :
    ((NewStream [1, 2, 3]).ParallelStream (fun e => e * 2) (-1) 8 [2, 0, 1]).elements.length
        = 3 ∧
    (((NewStream [1, 2, 3]).ParallelStream (fun e => e * 2) (-1) 8 [2, 0, 1]).elements
        : Multiset Nat) = (([2, 4, 6] : List Nat) : Multiset Nat) :=
  parallelStream_length_multiset (NewStream [1, 2, 3]) (fun e => e * 2) (-1) 8 [2, 0, 1]
    (by decide)

/-- C5: none of the transforming operations writes through the receiver:
after each call the receiver's backing array is unchanged.  Sort copies
the backing slice before the in-place sort.Slice; Filter, Distinct, Map
and FlatMap build their result by append into a fresh slice; Limit either
shares the receiver unmodified, allocates a fresh prefix, or (negative n)
panics before writing anything. -/
theorem transform_ops_preserve_receiver {T R : Type} [Inhabited T] (h : SliceHeap T)
    (recv : Nat) (hrecv : recv < h.nextId) (predicate : T → Bool) (less : T → T → Bool)
    (fmtV : T → String) (n : Int) (mapper : T → R) (flatMapper : T → List R) :
    (FilterCall h recv predicate).1.arrays recv = h.arrays recv ∧
    (SortCall h recv less).1.arrays recv = h.arrays recv ∧
    (DistinctCall h recv fmtV).1.arrays recv = h.arrays recv ∧
    (LimitCall h recv n).1.arrays recv = h.arrays recv ∧
    (MapCall h recv mapper).1.arrays recv = h.arrays recv ∧
    (FlatMapCall h recv flatMapper).1.arrays recv = h.arrays recv := by
  have hne : recv ≠ h.nextId := Nat.ne_of_lt hrecv
  refine ⟨?_, ?_, ?_, ?_, rfl, rfl⟩
  · simp [FilterCall, hne]
  · simp [SortCall, hne]
  · simp [DistinctCall, hne]
  · unfold LimitCall
    split
    · rfl
    · split
      · simp [hne]
      · rfl

/-- C5 witness: a one-array heap, each operation applied at concrete
arguments (Limit with the panicking bound -1 included). -/
theorem transform_ops_preserve_receiver_witness :
    (FilterCall (⟨fun _ => [3, 1, 2], 1⟩ : SliceHeap Nat) 0 (fun e => e % 2 = 0)).1.arrays 0
        = [3, 1, 2] ∧
    (SortCall (⟨fun _ => [3, 1, 2], 1⟩ : SliceHeap Nat) 0 natLess).1.arrays 0 = [3, 1, 2] ∧
    (DistinctCall (⟨fun _ => [3, 1, 2], 1⟩ : SliceHeap Nat) 0 (fun e => toString e)).1.arrays 0
        = [3, 1, 2] ∧
    (LimitCall (⟨fun _ => [3, 1, 2], 1⟩ : SliceHeap Nat) 0 (-1)).1.arrays 0 = [3, 1, 2] ∧
    (MapCall (⟨fun _ => [3, 1, 2], 1⟩ : SliceHeap Nat) 0 (fun e => e + 1)).1.arrays 0
        = [3, 1, 2] ∧
    (FlatMapCall (⟨fun _ => [3, 1, 2], 1⟩ : SliceHeap Nat) 0 (fun e => [e])).1.arrays 0
        = [3, 1, 2] :=
  transform_ops_preserve_receiver (⟨fun _ => [3, 1, 2], 1⟩ : SliceHeap Nat) 0 (by decide)
    (fun e => e % 2 = 0) natLess (fun e => toString e) (-1) (fun e => e + 1) (fun e => [e])

/-- C6: FindAny and FindFirst are the same function, both returning the
presence-wrapped first element of a non-empty stream and the
presence-wrapped absence on the empty stream; neither can fail. -/
theorem findFirst_findAny_equiv {T : Type} [Inhabited T] (s : Stream T) :
    s.FindAny = s.FindFirst ∧
    s.FindFirst = (match s.elements with
      | [] => Empty T
      | e :: _ => Of e) := by
  refine ⟨rfl, ?_⟩
  cases s with
  | mk elements =>
    cases elements with
    | nil => rfl
    | cons e rest => simp [Stream.FindFirst]

/-- C7: within each group, GroupBy keeps exactly the elements whose key
matches, in input traversal order (the in-order filter of the input); the
value-mapping variant keeps the mapped values in the same order. -/
theorem groupBy_preserves_order {T K V : Type} [DecidableEq K] (s : Stream T)
    (keyMapper : T → K) (valueMapper : T → V) (k : K) :
    s.GroupBy keyMapper k = s.elements.filter (fun e => decide (keyMapper e = k)) ∧
    GroupByWithValueMapper s keyMapper valueMapper k
        = (s.elements.filter (fun e => decide (keyMapper e = k))).map valueMapper := by
  constructor
  · simpa [Stream.GroupBy] using groupBy_fold_apply keyMapper k s.elements (fun _ => [])
  · simpa [GroupByWithValueMapper] using
      groupByValue_fold_apply keyMapper valueMapper k s.elements (fun _ => [])

/-- C8: mapping twice is mapping the composition, and Map preserves
length and element order (its elements are the in-order image). -/
theorem map_functor_law {T R U : Type} (s : Stream T) (f : T → R) (g : R → U) :
    Map (Map s f) g = Map s (fun e => g (f e)) ∧
    (Map s f).elements = s.elements.map f ∧
    (Map s f).elements.length = s.elements.length := by
  refine ⟨streamExt ?_, Map_elements s f, ?_⟩
  · rw [Map_elements, Map_elements, Map_elements, List.map_map]
    rfl
  · rw [Map_elements, List.length_map]

/-- C9: Distinct is idempotent; its result is never longer than the
input, and is a sublist of the input (first occurrences in input order). -/
theorem distinct_idempotent {T : Type} (s : Stream T) (fmtV : T → String) :
    (s.Distinct fmtV).Distinct fmtV = s.Distinct fmtV ∧
    (s.Distinct fmtV).elements.length ≤ s.elements.length ∧
    (s.Distinct fmtV).elements.Sublist s.elements := by
  have hsub := distinctLoop_sublist fmtV s.elements []
  refine ⟨?_, hsub.length_le, hsub⟩
  refine streamExt ?_
  show distinctLoop fmtV (distinctLoop fmtV s.elements []) [] = distinctLoop fmtV s.elements []
  exact distinctLoop_of_nodup fmtV _ [] (distinctLoop_keys fmtV s.elements []).1 (by simp)

/-- C10: collecting a stream built from a slice gives back that slice
unchanged, through ToSlice, the Collect method and the Collect function. -/
theorem newStream_collect_identity {T : Type} (xs : List T) :
    (NewStream xs).ToSlice = xs ∧ (NewStream xs).Collect = xs ∧ Collect (NewStream xs) = xs :=
  ⟨rfl, rfl, rfl⟩

/-! Stability analysis of Sort.  sort.Slice runs plain insertion sort on
ranges of at most 12 elements — and insertion sort only ever swaps
adjacent elements that compare strictly out of order, so equal-ranked
elements keep their relative order there.  Beyond 12 elements pdqsort
partitions with long-distance swaps and stability is lost (see the
counterexample). -/

theorem swapAt_length {α : Type} [Inhabited α] (l : List α) (i j : Nat) :
    (GoSort.swapAt l i j).length = l.length := by
  simp [GoSort.swapAt]

theorem getD_append_len {β : Type} (u : List β) (x : β) (w : List β) (d : β) :
    (u ++ x :: w).getD u.length d = x := by
  induction u with
  | nil => rfl
  | cons a u ih => simpa using ih

theorem getD_append_len_succ {β : Type} (u : List β) (x y : β) (w : List β) (d : β) :
    (u ++ x :: y :: w).getD (u.length + 1) d = y := by
  induction u with
  | nil => rfl
  | cons a u ih => simpa using ih

/-- A swap of the adjacent positions j and j+1 splices the two elements. -/
theorem swapAt_adjacent {β : Type} [Inhabited β] :
    ∀ (j : Nat) (l : List β), j + 1 < l.length →
      ∃ u x y v, l = u ++ x :: y :: v ∧ u.length = j ∧
        GoSort.swapAt l (j + 1) j = u ++ y :: x :: v := by
  intro j
  induction j with
  | zero =>
    intro l hl
    cases l with
    | nil => simp at hl
    | cons x l2 =>
      cases l2 with
      | nil => simp at hl
      | cons y v => exact ⟨[], x, y, v, rfl, rfl, rfl⟩
  | succ j ih =>
    intro l hl
    cases l with
    | nil => simp at hl
    | cons a l2 =>
      have h2 : j + 1 < l2.length := by
        rw [List.length_cons] at hl
        omega
      obtain ⟨u, x, y, v, hdec, hulen, hswap⟩ := ih l2 h2
      refine ⟨a :: u, x, y, v, by simp [hdec], by simp [hulen], ?_⟩
      have hcons : GoSort.swapAt (a :: l2) (j + 1 + 1) (j + 1) =
          a :: GoSort.swapAt l2 (j + 1) j := by
        simp [GoSort.swapAt, List.getD_cons_succ, List.set_cons_succ]
      rw [hcons, hswap]
      rfl

/-- Swapping two adjacent elements related in the new order preserves
Pairwise: only the mutual order of the swapped pair changes. -/
theorem pairwise_adjacent_swap {β : Type} {Rel : β → β → Prop} (u : List β) (x y : β)
    (v : List β) (hp : List.Pairwise Rel (u ++ x :: y :: v)) (hyx : Rel y x) :
    List.Pairwise Rel (u ++ y :: x :: v) := by
  rw [List.pairwise_append] at hp ⊢
  obtain ⟨hu, hxv, hcross⟩ := hp
  rw [List.pairwise_cons] at hxv
  obtain ⟨hx, hyv⟩ := hxv
  rw [List.pairwise_cons] at hyv
  obtain ⟨hy, hv⟩ := hyv
  refine ⟨hu, ?_, ?_⟩
  · rw [List.pairwise_cons]
    refine ⟨?_, ?_⟩
    · intro b hb
      rcases List.mem_cons.mp hb with hb | hb
      · exact hb ▸ hyx
      · exact hy b hb
    · rw [List.pairwise_cons]
      exact ⟨fun b hb => hx b (List.mem_cons_of_mem _ hb), hv⟩
  · intro a ha b hb
    apply hcross a ha
    rcases List.mem_cons.mp hb with hb | hb
    · exact hb ▸ List.mem_cons_of_mem _ (List.mem_cons_self _ _)
    · rcases List.mem_cons.mp hb with hb2 | hb2
      · exact hb2 ▸ List.mem_cons_self _ _
      · exact List.mem_cons_of_mem _ (List.mem_cons_of_mem _ hb2)

theorem insertionSortInner_length {α : Type} [Inhabited α] (less : α → α → Bool) (a : Nat) :
    ∀ (jv : Nat) (l : List α), (GoSort.insertionSortInner less a jv l).length = l.length := by
  intro jv
  induction jv with
  | zero => intro l; rfl
  | succ j ih =>
    intro l
    rw [GoSort.insertionSortInner]
    split
    · rw [ih, swapAt_length]
    · rfl

/-- The insertion-sort inner loop only swaps adjacent elements for which
the comparator holds, so any Pairwise relation implied by the comparator
is preserved. -/
theorem insertionSortInner_pairwise {α : Type} [Inhabited α] (less : α → α → Bool)
    {Rel : α → α → Prop} (hcomp : ∀ x y, less x y = true → Rel x y) (a : Nat) :
    ∀ (jv : Nat) (l : List α), jv < l.length → l.Pairwise Rel →
      (GoSort.insertionSortInner less a jv l).Pairwise Rel := by
  intro jv
  induction jv with
  | zero => intro l _ hp; exact hp
  | succ j ih =>
    intro l hj hp
    rw [GoSort.insertionSortInner]
    split
    case isTrue hcond =>
      obtain ⟨u, x, y, v, hdec, hulen, hswap⟩ := swapAt_adjacent j l hj
      have hgx : l.getD j default = x := by
        rw [hdec, ← hulen]
        exact getD_append_len u x (y :: v) default
      have hgy : l.getD (j + 1) default = y := by
        rw [hdec, ← hulen]
        exact getD_append_len_succ u x y v default
      have hyx : Rel y x := by
        apply hcomp
        have hlt := hcond.2
        rw [GoSort.lessAt, hgx, hgy] at hlt
        exact hlt
      have hswapped : (GoSort.swapAt l (j + 1) j).Pairwise Rel := by
        rw [hswap]
        exact pairwise_adjacent_swap u x y v (hdec ▸ hp) hyx
      apply ih
      · rw [swapAt_length]
        exact Nat.lt_of_succ_lt hj
      · exact hswapped
    case isFalse => exact hp

theorem insertionSortOuter_pairwise {α : Type} [Inhabited α] (less : α → α → Bool)
    {Rel : α → α → Prop} (hcomp : ∀ x y, less x y = true → Rel x y) (a b : Nat) :
    ∀ (fuel i : Nat) (l : List α), b ≤ l.length → l.Pairwise Rel →
      (GoSort.insertionSortOuter less a b fuel i l).Pairwise Rel := by
  intro fuel
  induction fuel with
  | zero => intro i l _ hp; exact hp
  | succ fuel ih =>
    intro i l hb hp
    rw [GoSort.insertionSortOuter]
    split
    case isTrue hib =>
      apply ih
      · rw [insertionSortInner_length]
        exact hb
      · exact insertionSortInner_pairwise less hcomp a i l (Nat.lt_of_lt_of_le hib hb) hp
    case isFalse => exact hp

theorem insertionSortFunc_pairwise {α : Type} [Inhabited α] (less : α → α → Bool)
    {Rel : α → α → Prop} (hcomp : ∀ x y, less x y = true → Rel x y) (a b : Nat)
    (l : List α) (hb : b ≤ l.length) (hp : l.Pairwise Rel) :
    (GoSort.insertionSortFunc less l a b).Pairwise Rel :=
  insertionSortOuter_pairwise less hcomp a b b (a + 1) l hb hp

/-- On at most 12 elements, sort.Slice is exactly one insertion sort. -/
theorem sortSlice_small {α : Type} [Inhabited α] (less : α → α → Bool) (l : List α)
    (h : l.length ≤ 12) :
    GoSort.sortSlice less l = GoSort.insertionSortFunc less l 0 l.length := by
  have hfuel : 3 * l.length + 3 = 3 * l.length + 2 + 1 := rfl
  rw [GoSort.sortSlice, hfuel, GoSort.pdqsortFunc]
  simp only [Nat.sub_zero]
  rw [if_pos h]

/-- C1 (amended): Sort is stable on streams of at most 12 elements, the
regime in which sort.Slice runs its stable insertion sort: tagging each
element with its input position (tags strictly increasing along the
input, and invisible to the comparator), every equal-ranked pair of the
output is still in increasing tag order.  On longer streams sort.Slice
partitions and stability fails (see the counterexample). -/
theorem sort_stable_upto_twelve {T : Type} [Inhabited T] (less : T → T → Bool)
    (s : Stream (T × Nat)) (hlen : s.elements.length ≤ 12)
    (htags : s.elements.Pairwise (fun p q => p.2 < q.2)) :
    (s.Sort (liftLess less)).elements.Pairwise (stablePair less) := by
  have hgood : s.elements.Pairwise (stablePair less) :=
    htags.imp (fun h _ _ => h)
  show (GoSort.sortSlice (liftLess less) s.elements).Pairwise (stablePair less)
  rw [sortSlice_small (liftLess less) s.elements hlen]
  apply insertionSortFunc_pairwise (liftLess less) ?_ 0 s.elements.length s.elements
    (Nat.le_refl _) hgood
  intro x y hxy
  intro h1 _
  rw [liftLess] at hxy
  rw [h1] at hxy
  cases hxy

/-- C1 witness: a four-element stream with equal-ranked elements keeps
them in input order. -/
theorem sort_stable_upto_twelve_witness :
    ((NewStream c1Small).Sort (liftLess natLess)).elements.Pairwise (stablePair natLess) :=
  sort_stable_upto_twelve natLess (NewStream c1Small) (by decide) (by decide)

/-- C1 counterexample: a 13-element stream, tagged with input positions
strictly increasing, whose twelve equal-ranked elements do not keep their
relative input order after Sort — sort.Slice partitions at 13 elements
and reorders them. -/
theorem sort_stability_counterexample :
    c1Input.Pairwise (fun p q => p.2 < q.2) ∧
    ¬ ((NewStream c1Input).Sort (liftLess natLess)).elements.Pairwise (stablePair natLess) := by
  decide

end GoExtras

